import Mathlib

/-!
Verification development for the macro-removal tool in `src/Core.py`.

The Python program manipulates zip-based OOXML documents on disk.  We embed it
shallowly: a file's content is a `Doc` (raw bytes, a readable zip archive, or a
truncated zip left by an interrupted write), the disk is an association list
from full paths to documents, and the orchestrator `clean_vba_macro` is a pure
state-passing function over that disk.  Failure of external operations (the
backup copy, the repack write) is injected through an explicit `Fault`
parameter; a fault raises a Python exception, which the orchestrator's
`try`/`except` turns into a `Failed` outcome record, exactly as in the source.
-/

/-- Entry contents and file bytes are modelled as Lean strings
    (byte-transparent, Latin-1 style). -/
abbrev Content := String

/-- A file on disk: raw non-zip bytes, a complete readable zip archive
    (entry name / entry content pairs in archive order), or a truncated
    archive left behind by an interrupted write (opening it raises
    `BadZipFile`, like raw bytes). -/
inductive Doc where
  | raw (bytes : Content)
  | zip (ents : List (String × Content))
  | truncZip (ents : List (String × Content))
deriving DecidableEq

/-- The disk: full path to file content. -/
abbrev FS := List (String × Doc)

def fsGet : FS → String → Option Doc
  | [], _ => none
  | (q, d) :: rest, p => if q = p then some d else fsGet rest p

def fsSet : FS → String → Doc → FS
  | [], p, d => [(p, d)]
  | (q, e) :: rest, p, d =>
    if q = p then (p, d) :: rest else (q, e) :: fsSet rest p d

/-- The unpacked working directory: relative file path to file content. -/
abbrev WorkTree := List (String × Content)

def treeGet : WorkTree → String → Option Content
  | [], _ => none
  | (q, c) :: rest, p => if q = p then some c else treeGet rest p

def treeSet : WorkTree → String → Content → WorkTree
  | [], p, c => [(p, c)]
  | (q, e) :: rest, p, c =>
    if q = p then (p, c) :: rest else (q, e) :: treeSet rest p c

def treeDel : WorkTree → String → WorkTree
  | [], _ => []
  | (q, c) :: rest, p =>
    if q = p then treeDel rest p else (q, c) :: treeDel rest p

/-- `listStarts p s` holds when `p` is a prefix of `s` (own recursion, used to
    model `str.startswith` / path-component containment). -/
def listStarts : List Char → List Char → Bool
  | [], _ => true
  | _ :: _, [] => false
  | a :: as, b :: bs => a = b && listStarts as bs

def strStarts (p s : String) : Bool := listStarts p.data s.data

/-- Does the string end with the character `/` (zip directory entries)? -/
def endsSlash (s : String) : Bool := s.data.getLast? = some '/'

/-- Index of the last `.` in a list of characters, if any. -/
def lastDotIdx : List Char → Option Nat
  | [] => none
  | c :: rest =>
    match lastDotIdx rest with
    | some i => some (i + 1)
    | none => if c = '.' then some 0 else none

/-- `pathlib.PurePath.suffix`: the extension of the final component, taken
    from the last dot, empty when the dot is first or last character. -/
def pySuffix (name : String) : String :=
  match lastDotIdx name.data with
  | some i =>
    if 0 < i ∧ i < name.data.length - 1 then ⟨name.data.drop i⟩ else ""
  | none => ""

/-- `pathlib.PurePath.stem`: the final component without its suffix. -/
def pyStem (name : String) : String :=
  match lastDotIdx name.data with
  | some i =>
    if 0 < i ∧ i < name.data.length - 1 then ⟨name.data.take i⟩ else name
  | none => name

/-- `str.lower` restricted to ASCII case mapping. -/
def strLower (s : String) : String := ⟨s.data.map Char.toLower⟩

/-- `SUPPORTED_EXTS` of `clean_vba_macro` (macro-capable formats). -/
def SUPPORTED_EXTS : List String :=
  [".docm", ".dotm", ".xlsm", ".xltm", ".pptm", ".potm"]

/-- `NO_MACRO_EXTS` of `clean_vba_macro` (formats that cannot hold macros,
    treated as automatic no-macro success). -/
def NO_MACRO_EXTS : List String :=
  [".xlsx", ".xlsb", ".xltx", ".xls",
   ".docx", ".dotx", ".doc",
   ".pptx", ".potx", ".ppsx", ".ppt",
   ".odt", ".ods", ".odp", ".rtf", ".pdf", ".txt", ".csv", ".xml"]

inductive Classification where
  | macroIncapable
  | macroCapable
  | unsupported
deriving DecidableEq

/-- The extension tests of `clean_vba_macro` (lines 294-314): the lowercased
    suffix is looked up first in `NO_MACRO_EXTS`, then in `SUPPORTED_EXTS`. -/
def classifyName (fname : String) : Classification :=
  let s := strLower (pySuffix fname)
  if NO_MACRO_EXTS.contains s then Classification.macroIncapable
  else if SUPPORTED_EXTS.contains s then Classification.macroCapable
  else Classification.unsupported

/-! ## Manifest sanitizer (`_clean_content_types`, Core.py lines 441-463) -/

/-- Python `\s` on the ASCII range. -/
def pySpace (c : Char) : Bool :=
  c = ' ' || c = '\t' || c = '\n' || c = '\r' || c = '\x0b' || c = '\x0c'

/-- Position just past the first occurrence of the closing sequence `/>`,
    `none` when there is none. -/
def findClose : List Char → Option Nat
  | [] => none
  | '/' :: '>' :: _ => some 2
  | _ :: rest => (findClose rest).map (· + 1)

/-- One `re.sub(re.escape(pre) ++ ".*?/>", "", s, flags=re.DOTALL)` pass:
    scanning left to right, wherever `pre` starts a match the shortest
    stretch through the next `/>` is removed; matches do not overlap and the
    output is not rescanned.  `fuel` bounds the recursion; every step either
    keeps one character or drops a whole match, so the string's length is
    enough fuel. -/
def removePatAux (pre : List Char) : Nat → List Char → List Char
  | 0, s => s
  | _ + 1, [] => []
  | fuel + 1, c :: rest =>
    if listStarts pre (c :: rest) then
      match findClose ((c :: rest).drop pre.length) with
      | some k => removePatAux pre fuel ((c :: rest).drop (pre.length + k))
      | none => c :: removePatAux pre fuel rest
    else c :: removePatAux pre fuel rest

def removePat (pre : List Char) (s : List Char) : List Char :=
  removePatAux pre s.length s

def patWordVba : List Char := "<Override PartName=\"/word/vbaProject.bin\"".data
def patXlVba : List Char := "<Override PartName=\"/xl/vbaProject.bin\"".data
def patPptVba : List Char := "<Override PartName=\"/ppt/vbaProject.bin\"".data
def patDefaultBin : List Char := "<Default Extension=\"bin\"".data

/-- Index of the last newline in a list, if any. -/
def lastNlIdx : List Char → Option Nat
  | [] => none
  | c :: rest =>
    match lastNlIdx rest with
    | some i => some (i + 1)
    | none => if c = '\n' then some 0 else none

/-- One `re.sub(r"\n\s*\n", "\n", s)` pass.  A match starts at a newline;
    the greedy `\s*` with backtracking makes the match run through the last
    newline of the maximal whitespace stretch that follows; the whole match
    is replaced by one newline and scanning resumes after it. -/
def collapseAux : Nat → List Char → List Char
  | 0, s => s
  | _ + 1, [] => []
  | fuel + 1, c :: rest =>
    if c = '\n' then
      match lastNlIdx (rest.takeWhile pySpace) with
      | some i => '\n' :: collapseAux fuel (rest.drop (i + 1))
      | none => '\n' :: collapseAux fuel rest
    else c :: collapseAux fuel rest

def collapseBlank (s : List Char) : List Char := collapseAux s.length s

/-- `_clean_content_types`: the four pattern removals in source order, then
    blank-line collapsing.  (The file-system `try`/`except` wrapper around it
    is `cleanContentTypesAt` below.) -/
def clean_content_types (s : String) : String :=
  ⟨collapseBlank (removePat patDefaultBin (removePat patPptVba
    (removePat patXlVba (removePat patWordVba s.data))))⟩

def ctName : String := "[Content_Types].xml"

/-- The call site (lines 390-393): the manifest inside the unpacked working
    directory is sanitized only when it exists. -/
def cleanContentTypesAt (tr : WorkTree) : WorkTree :=
  match treeGet tr ctName with
  | none => tr
  | some c => treeSet tr ctName (clean_content_types c)

/-! ## Macro extractor (`_extract_vba_code`, Core.py lines 122-219) -/

/-- `_VBA_BIN_PATHS` (line 121), in source order. -/
def VBA_BIN_PATHS : List String :=
  ["word/vbaProject.bin", "xl/vbaProject.bin", "ppt/vbaProject.bin"]

/-- The external `oletools.olevba.VBA_Parser` capability, abstracted:
    `parseWhole` is opening the document at the path and collecting code
    bodies with `_extract_vba_from_parser` (its input is the file found at
    the path, `none` when missing); `parseBin` is the same run against an
    extracted `vbaProject.bin` stream written to a temporary file.
    `Except.error` models a raised exception; `available = false` models the
    `ImportError` branch. -/
structure VbaOracle where
  available : Bool
  parseWhole : Option Doc → Except String (List String)
  parseBin : Content → Except String (List String)

/-- First of `_VBA_BIN_PATHS` present in the archive's name list
    (the `for name in _VBA_BIN_PATHS` loop, lines 178-181). -/
def firstVbaPath (ents : List (String × Content)) : Option String :=
  VBA_BIN_PATHS.find? (fun n => ents.any (fun e => decide (e.1 = n)))

/-- `ZipFile.read`: with duplicate entry names the last entry wins. -/
def zipRead (ents : List (String × Content)) (n : String) : Content :=
  (ents.foldl (fun acc e => if e.1 = n then some e.2 else acc) none).getD ""

/-- `"\n\n---\n\n".join(out)`. -/
def joinVba : List String → String
  | [] => ""
  | [s] => s
  | s :: rest => s ++ "\n\n---\n\n" ++ joinVba rest

/-- The function's final `return`: the joined code bodies, or the
    no-visible-macro placeholder when none were collected. -/
def vbaResult (out : List String) : String :=
  if out.isEmpty then "(无可见宏代码)" else joinVba out

/-- `_extract_vba_code`.  Returns the text the Python function returns,
    paired with an instrumentation flag that is `true` exactly when control
    reached the embedded-binary-stream fallback's parse (the
    `VBA_Parser(temp_bin)` call on the stream extracted to a temporary
    file, lines 184-190).  Control flow of the source: an exception from the
    whole-document parse is caught at line 206 and returns the failure
    placeholder at once; the fallback runs only when the whole-document
    parse returns normally with no code, the file exists, opens as a zip,
    and one of `_VBA_BIN_PATHS` is among its entries; exceptions inside the
    fallback are swallowed (lines 202-205). -/
def extract_vba_code (o : VbaOracle) (fs : FS) (p : String) : String × Bool :=
  if o.available = false then
    ("(请安装 oletools 以查看宏代码: pip install oletools)", false)
  else
    match o.parseWhole (fsGet fs p) with
    | Except.error e => ("(提取失败: " ++ e ++ ")", false)
    | Except.ok outW =>
      if outW.isEmpty then
        match fsGet fs p with
        | some (Doc.zip ents) =>
          match firstVbaPath ents with
          | some nm =>
            match o.parseBin (zipRead ents nm) with
            | Except.ok outB => (vbaResult outB, true)
            | Except.error _ => (vbaResult [], true)
          | none => (vbaResult [], false)
        | _ => (vbaResult [], false)
      else (joinVba outW, false)

/-! ## Cleaning pipeline (`clean_vba_macro`, Core.py lines 230-438)

The `generate_report` / `is_english` parameters of the source only choose the
message catalog's language and whether the out-of-scope HTML renderer runs;
they do not influence control flow or the disk, so messages are modelled by
catalog key and those two parameters are dropped. -/

inductive Status where
  | success
  | failed
deriving DecidableEq

/-- The message catalog keys `clean_vba_macro` writes into the record. -/
inductive Msg where
  | fileNotFound
  | unsupportedFormat (suffix : String)
  | invalidFormat
  | unknownDocType
  | noMacroSkip
  | noMacroFormat
  | saveFailed
  | macroClearedReplace
  | macroCleared (size : Nat)
  | noMacro
  | exceptionMsg (e : String)
deriving DecidableEq

/-- The fields of the per-file outcome record (`report_data`) that the
    claims refer to. -/
structure Outcome where
  status : Status
  message : Msg
  vba_found : Bool
  vba_size : Nat
  vba_code : String
deriving DecidableEq

structure CleanResult where
  fs : FS
  ret : Nat
  record : Outcome
deriving DecidableEq

/-- Injected failures of the external operations inside the `try` block:
    `extractFail` makes `zip_ref.extractall` raise (after the archive opened),
    `backupFail` makes the `shutil.copy2` backup raise, and `repackStop k`
    makes the repack write raise after `k` entries were written into the
    freshly truncated output file. -/
inductive Fault where
  | extractFail
  | backupFail
  | repackStop (k : Nat)
deriving DecidableEq

/-- What a raised exception carries out of the `try` block: the message and
    the disk / record state already mutated before the raise. -/
structure PyExn where
  msg : String
  fs : FS
  vba_found : Bool
  vba_size : Nat
  vba_code : String

/-- `zip_ref.extractall`: regular-file entries materialize in the working
    directory in archive order, a later duplicate overwriting an earlier
    one; names ending in `/` only create directories. -/
def extractTree (ents : List (String × Content)) : WorkTree :=
  ents.foldl (fun acc e => if endsSlash e.1 then acc else treeSet acc e.1 e.2) []

/-- `(extract_path / d).exists()` after extraction: some entry is the path
    itself or lies underneath it. -/
def dirEntryExists (ents : List (String × Content)) (d : String) : Bool :=
  ents.any (fun e => decide (e.1 = d) || strStarts (d ++ "/") e.1)

inductive DocFamily where
  | word
  | excel
  | ppt
deriving DecidableEq

/-- `vba_paths` (lines 336-340). -/
def vbaPathOf : DocFamily → String
  | DocFamily.word => "word/vbaProject.bin"
  | DocFamily.excel => "xl/vbaProject.bin"
  | DocFamily.ppt => "ppt/vbaProject.bin"

/-- `vba_path.parent / (vba_path.name + ".rels")` (line 366). -/
def relsPathOf : DocFamily → String
  | DocFamily.word => "word/vbaProject.bin.rels"
  | DocFamily.excel => "xl/vbaProject.bin.rels"
  | DocFamily.ppt => "ppt/vbaProject.bin.rels"

/-- Document-family detection (lines 342-348): `word`, then `xl`, then
    `ppt`, first existing directory wins. -/
def detectFamily (ents : List (String × Content)) : Option DocFamily :=
  if dirEntryExists ents "word" then some DocFamily.word
  else if dirEntryExists ents "xl" then some DocFamily.excel
  else if dirEntryExists ents "ppt" then some DocFamily.ppt
  else none

/-- `_repack_docx` (lines 464-472) with fault injection.  Opening the output
    with `zipfile.ZipFile(output_path, "w")` truncates it at once; the
    working directory's files are then written in order.  `repackStop k`
    raises after `k` entries, leaving a truncated archive at the output
    path; the raised exception carries the disk in that state. -/
def repack_docx (fault : Option Fault) (tr : WorkTree) (fs : FS)
    (out : String) : Except FS FS :=
  match fault with
  | some (Fault.repackStop k) =>
    Except.error (fsSet fs out (Doc.truncZip (tr.take k)))
  | _ => Except.ok (fsSet fs out (Doc.zip tr))

/-- The backup file's path: `input_path.parent / (stem + "_backup" + suffix)`
    (line 397). -/
def backupPath (dir fname : String) : String :=
  dir ++ "/" ++ pyStem fname ++ "_backup" ++ pySuffix fname

/-- Body of `clean_vba_macro`'s `try` block (lines 287-429), one branch per
    source path.  In the final message choice (lines 418-429) the source's
    `else` branch (`msg_no_macro`, return 0) is unreachable because
    `vba_found` is true on every path that reaches it. -/
def clean_vba_try (o : VbaOracle) (fault : Option Fault) (fs : FS)
    (dir fname : String) (replace_original : Bool) :
    Except PyExn CleanResult :=
  let input_path := dir ++ "/" ++ fname
  match fsGet fs input_path with
  | none => Except.ok ⟨fs, 0, ⟨Status.failed, Msg.fileNotFound, false, 0, ""⟩⟩
  | some doc =>
    match classifyName fname with
    | Classification.macroIncapable =>
      Except.ok ⟨fs, 0, ⟨Status.success, Msg.noMacroFormat, false, 0, ""⟩⟩
    | Classification.unsupported =>
      Except.ok ⟨fs, 0,
        ⟨Status.failed, Msg.unsupportedFormat (pySuffix fname), false, 0, ""⟩⟩
    | Classification.macroCapable =>
      match doc with
      | Doc.raw _ =>
        Except.ok ⟨fs, 0, ⟨Status.failed, Msg.invalidFormat, false, 0, ""⟩⟩
      | Doc.truncZip _ =>
        Except.ok ⟨fs, 0, ⟨Status.failed, Msg.invalidFormat, false, 0, ""⟩⟩
      | Doc.zip ents =>
        if fault = some Fault.extractFail then
          Except.error ⟨"extract failed", fs, false, 0, ""⟩
        else
          let tr := extractTree ents
          match detectFamily ents with
          | none =>
            Except.ok ⟨fs, 0, ⟨Status.failed, Msg.unknownDocType, false, 0, ""⟩⟩
          | some fam =>
            match treeGet tr (vbaPathOf fam) with
            | none =>
              Except.ok ⟨fs, 0, ⟨Status.success, Msg.noMacroSkip, false, 0, ""⟩⟩
            | some vbaContent =>
              let vsize := vbaContent.length
              let vcode := ( extract_vba_code o fs input_path).1
              let tr3 := cleanContentTypesAt
                (treeDel (treeDel tr (vbaPathOf fam)) (relsPathOf fam))
              match (if replace_original then
                      (if fault = some Fault.backupFail then none
                       else some (fsSet fs (backupPath dir fname) doc))
                     else some fs) with
              | none => Except.error ⟨"backup failed", fs, true, vsize, vcode⟩
              | some fs1 =>
                match repack_docx fault tr3 fs1 input_path with
                | Except.error fs2 =>
                  Except.error ⟨"repack failed", fs2, true, vsize, vcode⟩
                | Except.ok fs2 =>
                  if (fsGet fs2 input_path).isNone then
                    Except.ok ⟨fs2, 0,
                      ⟨Status.failed, Msg.saveFailed, true, vsize, vcode⟩⟩
                  else if replace_original then
                    Except.ok ⟨fs2, 1,
                      ⟨Status.success, Msg.macroClearedReplace, true, vsize, vcode⟩⟩
                  else
                    Except.ok ⟨fs2, 1,
                      ⟨Status.success, Msg.macroCleared vsize, true, vsize, vcode⟩⟩

/-- `clean_vba_macro` (lines 230-438): the `try` body wrapped in the
    `except Exception` handler (lines 430-433), which records the failure
    in the per-file outcome record and returns 0. -/
def clean_vba_macro (o : VbaOracle) (fault : Option Fault) (fs : FS)
    (dir fname : String) (replace_original : Bool) : CleanResult :=
  match clean_vba_try o fault fs dir fname replace_original with
  | Except.ok r => r
  | Except.error ex =>
    ⟨ex.fs, 0,
      ⟨Status.failed, Msg.exceptionMsg ex.msg, ex.vba_found, ex.vba_size,
        ex.vba_code⟩⟩

/-- One batch job: directory, file name, replace flag, injected fault. -/
structure Job where
  dir : String
  fname : String
  replace : Bool
  fault : Option Fault

/-- The batch loop of `widget.py` `CleanMacroWorker.run` (lines 73-81):
    every file is processed in order, each outcome record appended to the
    process history, the return values summed into the success count. -/
def clean_batch (o : VbaOracle) :
    List Job → FS → List Outcome → Nat → FS × List Outcome × Nat
  | [], fs, hist, acc => (fs, hist, acc)
  | j :: rest, fs, hist, acc =>
    let r := clean_vba_macro o j.fault fs j.dir j.fname j.replace
    clean_batch o rest r.fs (hist ++ [r.record]) (acc + r.ret)

/-! ## Fixtures and derived predicates used by the theorems below -/

/-- Does the message mark the macro-cleared success path (lines 418-425)? -/
def isClearedMsg : Msg → Bool
  | Msg.macroClearedReplace => true
  | Msg.macroCleared _ => true
  | _ => false

/-- Some position of the string starts with `pre` (a match site of the
    removal pattern might exist there). -/
def hasStart (pre : List Char) : List Char → Bool
  | [] => false
  | c :: rest => listStarts pre (c :: rest) || hasStart pre rest

/-- Some position of the string matches the blank-line pattern
    `\n\s*\n`. -/
def hasBlank : List Char → Bool
  | [] => false
  | c :: rest =>
    (c = '\n' && (lastNlIdx (rest.takeWhile pySpace)).isSome) || hasBlank rest

def isCompleteZip : Option Doc → Bool
  | some (Doc.zip _) => true
  | _ => false

def oracle0 : VbaOracle :=
  ⟨true, fun _ => Except.ok [], fun _ => Except.ok []⟩

def oracleThrow : VbaOracle :=
  ⟨true, fun _ => Except.error "boom", fun _ => Except.ok ["Sub X"]⟩

def ents0 : List (String × Content) :=
  [("[Content_Types].xml",
    "a\n<Override PartName=\"/xl/vbaProject.bin\" x/>\nb"),
   ("xl/workbook.xml", "wb"),
   ("xl/vbaProject.bin", "MACROBYTES"),
   ("xl/vbaProject.bin.rels", "rels")]

def fs0 : FS := [("/d/a.xlsm", Doc.zip ents0)]

def ents1 : List (String × Content) := [("xl/workbook.xml", "wb")]

def fs1 : FS := [("/d/b.xlsm", Doc.zip ents1)]

def entsW : List (String × Content) :=
  [("word/document.xml", "d"), ("xl/vbaProject.bin", "MB")]

def fsW : FS := [("/d/c.docm", Doc.zip entsW)]

def job0 : Job := ⟨"/d", "missing.xlsm", false, none⟩

def ctC : String :=
  "<Override PartName=\"/word/vbaProject.bi" ++
  "<Override PartName=\"/word/vbaProject.bin\"" ++ "x/>" ++ "n\" y/>"

def manifest0 : String :=
  "<Types>\n<Default Extension=\"xml\" q/>\n</Types>"

def tr0 : WorkTree := [("word/document.xml", "d")]

/-! ## Sanity checks on concrete inputs -/

example : classifyName "a.XLSM" = Classification.macroCapable := by decide
example : classifyName "a.xlsx" = Classification.macroIncapable := by decide
example : classifyName "a.zip" = Classification.unsupported := by decide
example : classifyName "archive.tar.docm" = Classification.macroCapable := by
  decide
example : pySuffix "a.b.C" = ".C" ∧ pyStem "a.b.C" = "a.b" := by decide
example : pySuffix ".bashrc" = "" ∧ pySuffix "file." = "" := by decide

example :
    clean_content_types "<Override PartName=\"/word/vbaProject.bin\" y/>" =
      "" := by decide

example :
    clean_content_types "a\n\n\nb" = "a\nb" := by decide

/-! ## Helper lemmas about the embedding's primitives -/

theorem fsGet_fsSet_self (fs : FS) (p : String) (d : Doc) :
    fsGet (fsSet fs p d) p = some d := by
  induction fs with
  | nil => simp [fsGet, fsSet]
  | cons hd tl ih =>
    by_cases h : hd.1 = p <;> simp [fsGet, fsSet, h, ih]

theorem fsGet_fsSet_ne (fs : FS) (p q : String) (d : Doc) (h : q ≠ p) :
    fsGet (fsSet fs p d) q = fsGet fs q := by
  induction fs with
  | nil => simp [fsGet, fsSet, Ne.symm h]
  | cons hd tl ih =>
    by_cases h1 : hd.1 = p
    · simp [fsGet, fsSet, h1, Ne.symm h]
    · by_cases h2 : hd.1 = q <;> simp [fsGet, fsSet, h1, h2, h, ih]

theorem treeGet_treeSet_self (t : WorkTree) (p : String) (c : Content) :
    treeGet (treeSet t p c) p = some c := by
  induction t with
  | nil => simp [treeGet, treeSet]
  | cons hd tl ih =>
    by_cases h : hd.1 = p <;> simp [treeGet, treeSet, h, ih]

theorem treeGet_treeSet_ne (t : WorkTree) (p q : String) (c : Content)
    (h : q ≠ p) : treeGet (treeSet t p c) q = treeGet t q := by
  induction t with
  | nil => simp [treeGet, treeSet, Ne.symm h]
  | cons hd tl ih =>
    by_cases h1 : hd.1 = p
    · simp [treeGet, treeSet, h1, Ne.symm h]
    · by_cases h2 : hd.1 = q <;> simp [treeGet, treeSet, h1, h2, h, ih]

theorem listStarts_refl (l : List Char) : listStarts l l = true := by
  induction l with
  | nil => rfl
  | cons c rest ih => simp [listStarts, ih]

theorem strStarts_refl (s : String) : strStarts s s = true :=
  listStarts_refl s.data

/-- A name absent from the archive's entry names is absent from the
    extracted working directory. -/
theorem treeGet_extractTree_eq_none (ents : List (String × Content))
    (p : String) (h : ∀ e ∈ ents, e.1 ≠ p) :
    treeGet (extractTree ents) p = none := by
  have main : ∀ (l : List (String × Content)) (acc : WorkTree),
      (∀ e ∈ l, e.1 ≠ p) → treeGet acc p = none →
      treeGet (l.foldl (fun acc e =>
        if endsSlash e.1 then acc else treeSet acc e.1 e.2) acc) p = none := by
    intro l
    induction l with
    | nil => intro acc _ hacc; simpa using hacc
    | cons e rest ih =>
      intro acc hl hacc
      have he : e.1 ≠ p := hl e (by simp)
      have hrest : ∀ x ∈ rest, x.1 ≠ p := fun x hx => hl x (by simp [hx])
      simp only [List.foldl_cons]
      refine ih _ hrest ?_
      by_cases hs : endsSlash e.1
      · simpa [hs] using hacc
      · simpa [hs, treeGet_treeSet_ne _ _ _ _ (Ne.symm he)] using hacc
  exact main ents [] h (by simp [treeGet])

/-- The two extension lists of `clean_vba_macro` are disjoint. -/
theorem supported_not_no_macro (s : String)
    (h : SUPPORTED_EXTS.contains s = true) :
    NO_MACRO_EXTS.contains s = false := by
  have hm : s ∈ SUPPORTED_EXTS := by simpa using h
  simp only [SUPPORTED_EXTS, List.mem_cons, List.not_mem_nil, or_false] at hm
  rcases hm with h1 | h1 | h1 | h1 | h1 | h1 <;> subst h1 <;> decide

theorem classify_of_supported (fname : String)
    (h : SUPPORTED_EXTS.contains (strLower (pySuffix fname)) = true) :
    classifyName fname = Classification.macroCapable := by
  have hm : strLower (pySuffix fname) ∈ SUPPORTED_EXTS := by simpa using h
  have hn : strLower (pySuffix fname) ∉ NO_MACRO_EXTS := by
    simpa using supported_not_no_macro _ h
  unfold classifyName
  simp [hm, hn]

theorem classify_of_no_macro_ext (fname : String)
    (h : NO_MACRO_EXTS.contains (strLower (pySuffix fname)) = true) :
    classifyName fname = Classification.macroIncapable := by
  have hm : strLower (pySuffix fname) ∈ NO_MACRO_EXTS := by simpa using h
  unfold classifyName
  simp [hm]

theorem classify_of_neither (fname : String)
    (h1 : NO_MACRO_EXTS.contains (strLower (pySuffix fname)) = false)
    (h2 : SUPPORTED_EXTS.contains (strLower (pySuffix fname)) = false) :
    classifyName fname = Classification.unsupported := by
  have hm1 : strLower (pySuffix fname) ∉ NO_MACRO_EXTS := by simpa using h1
  have hm2 : strLower (pySuffix fname) ∉ SUPPORTED_EXTS := by simpa using h2
  unfold classifyName
  simp [hm1, hm2]

/-- The stem and the suffix split the name. -/
theorem stem_len_add_suffix_len (n : String) :
    (pyStem n).data.length + (pySuffix n).data.length = n.data.length := by
  unfold pyStem pySuffix
  cases h : lastDotIdx n.data with
  | none => simp
  | some i =>
    dsimp only
    by_cases hc : 0 < i ∧ i < n.data.length - 1
    · rw [if_pos hc, if_pos hc]
      show (n.data.take i).length + (n.data.drop i).length = n.data.length
      rw [List.length_take, List.length_drop]
      omega
    · rw [if_neg hc, if_neg hc]
      simp

/-- The backup file's path never coincides with the input path. -/
theorem backupPath_ne_input (dir fname : String) :
    backupPath dir fname ≠ dir ++ "/" ++ fname := by
  intro h
  have hlen := congrArg String.length h
  have hsum : (pyStem fname).length + (pySuffix fname).length = fname.length :=
    stem_len_add_suffix_len fname
  have h7 : ("_backup" : String).length = 7 := rfl
  have h1 : ("/" : String).length = 1 := rfl
  simp only [backupPath, String.length_append] at hlen
  omega

/-- Case analysis over every normal-return path of the `try` block: the
    return value is 1 exactly on the two macro-cleared messages; a failed
    status always returns 0; and on the macro-cleared path a complete zip
    archive stands at the input path. -/
theorem clean_vba_try_ok_spec (o : VbaOracle) (fault : Option Fault) (fs : FS)
    (dir fname : String) (r : Bool) (out : CleanResult)
    (h : clean_vba_try o fault fs dir fname r = Except.ok out) :
    (out.ret = 1 ↔ isClearedMsg out.record.message = true) ∧
    (out.record.status = Status.failed → out.ret = 0) ∧
    (isClearedMsg out.record.message = true →
      out.record.status = Status.success ∧ out.record.vba_found = true ∧
      ∃ es, fsGet out.fs (dir ++ "/" ++ fname) = some (Doc.zip es)) := by
  obtain _ | (_ | _ | k) := fault
  all_goals simp only [clean_vba_try, repack_docx] at h
  all_goals repeat' split at h
  all_goals try injection h with h
  all_goals try subst h
  all_goals simp_all [isClearedMsg, fsGet_fsSet_self]

/-- The `except Exception` handler (lines 430-433) turns a raised exception
    into a Failed record carrying the exception text, and returns 0. -/
theorem clean_vba_macro_error_spec (o : VbaOracle) (fault : Option Fault)
    (fs : FS) (dir fname : String) (r : Bool) (ex : PyExn)
    (h : clean_vba_try o fault fs dir fname r = Except.error ex) :
    clean_vba_macro o fault fs dir fname r =
      ⟨ex.fs, 0, ⟨Status.failed, Msg.exceptionMsg ex.msg, ex.vba_found,
        ex.vba_size, ex.vba_code⟩⟩ := by
  unfold clean_vba_macro
  rw [h]

/-- The `try` block's case analysis lifted through the exception handler. -/
theorem clean_vba_macro_spec (o : VbaOracle) (fault : Option Fault) (fs : FS)
    (dir fname : String) (r : Bool) :
    (( clean_vba_macro o fault fs dir fname r).ret = 1 ↔
      isClearedMsg ( clean_vba_macro o fault fs dir fname r).record.message =
        true) ∧
    (( clean_vba_macro o fault fs dir fname r).record.status = Status.failed →
      ( clean_vba_macro o fault fs dir fname r).ret = 0) ∧
    (isClearedMsg ( clean_vba_macro o fault fs dir fname r).record.message =
        true →
      ( clean_vba_macro o fault fs dir fname r).record.status =
          Status.success ∧
      ( clean_vba_macro o fault fs dir fname r).record.vba_found = true ∧
      ∃ es, fsGet ( clean_vba_macro o fault fs dir fname r).fs
        (dir ++ "/" ++ fname) = some (Doc.zip es)) := by
  cases h : clean_vba_try o fault fs dir fname r with
  | ok res =>
    have hspec := clean_vba_try_ok_spec o fault fs dir fname r res h
    have hm : clean_vba_macro o fault fs dir fname r = res := by
      unfold clean_vba_macro
      rw [h]
    rw [hm]
    exact hspec
  | error ex =>
    rw [ clean_vba_macro_error_spec o fault fs dir fname r ex h]
    simp [isClearedMsg]

/-- The batch loop appends exactly one outcome record per job. -/
theorem clean_batch_length (o : VbaOracle) :
    ∀ (jobs : List Job) (fs : FS) (hist : List Outcome) (acc : Nat),
      (clean_batch o jobs fs hist acc).2.1.length =
        hist.length + jobs.length := by
  intro jobs
  induction jobs with
  | nil =>
    intro fs hist acc
    simp [clean_batch]
  | cons j rest ih =>
    intro fs hist acc
    simp only [clean_batch]
    rw [ih]
    simp
    omega

/-- A pattern pass leaves a string without match sites unchanged. -/
theorem removePatAux_of_no_start (pre : List Char) :
    ∀ (fuel : Nat) (s : List Char), hasStart pre s = false →
      removePatAux pre fuel s = s := by
  intro fuel
  induction fuel with
  | zero => intro s _; rfl
  | succ n ih =>
    intro s hs
    cases s with
    | nil => rfl
    | cons c rest =>
      simp only [hasStart, Bool.or_eq_false_iff] at hs
      simp only [removePatAux, hs.1, Bool.false_eq_true, if_false]
      rw [ih rest hs.2]

/-- The blank-line pass leaves a string without blank-line matches
    unchanged. -/
theorem collapseAux_of_no_blank :
    ∀ (fuel : Nat) (s : List Char), hasBlank s = false →
      collapseAux fuel s = s := by
  intro fuel
  induction fuel with
  | zero => intro s _; rfl
  | succ n ih =>
    intro s hs
    cases s with
    | nil => rfl
    | cons c rest =>
      simp only [hasBlank, Bool.or_eq_false_iff] at hs
      by_cases hc : c = '\n'
      · subst hc
        have hfalse : (lastNlIdx (rest.takeWhile pySpace)).isSome = false := by
          simpa using hs.1
        have hnone : lastNlIdx (rest.takeWhile pySpace) = none := by
          cases h' : lastNlIdx (rest.takeWhile pySpace) with
          | none => rfl
          | some i => rw [h'] at hfalse; simp at hfalse
        simp only [collapseAux, hnone, reduceIte]
        rw [ih rest hs.2]
      · simp only [collapseAux, hc, reduceIte]
        rw [ih rest hs.2]

/-- C1 counterexample: the claim "the on-disk document at the input path is
    either byte-identical to the original or a complete repacked container;
    a repack failure never corrupts it" is false.  With the repack write
    interrupted right after it truncated the output (`Fault.repackStop 0`),
    the macro-bearing input file is left as a truncated archive: neither the
    original bytes nor a complete zip.  `_repack_docx` writes straight to
    the original path instead of writing to a temporary file and renaming. -/
theorem c1_counterexample_partial_repack_corrupts :
    fsGet ( clean_vba_macro oracle0 (some (Fault.repackStop 0)) fs0 "/d"
        "a.xlsm" false).fs "/d/a.xlsm" ≠ fsGet fs0 "/d/a.xlsm" ∧
    isCompleteZip (fsGet ( clean_vba_macro oracle0 (some (Fault.repackStop 0))
      fs0 "/d" "a.xlsm" false).fs "/d/a.xlsm") = false := by
  decide

/-- C2 counterexample: the claim "when the whole-document parse raises,
    the embedded-binary-stream fallback is still attempted" is false.  With
    a parser whose whole-document parse raises, `_extract_vba_code` returns
    the failure placeholder at once (the `except` at line 206 catches the
    exception before the fallback code at lines 170-205 runs), even though
    the container holds an `xl/vbaProject.bin` stream the fallback would
    have found. -/
theorem c2_counterexample_parser_throw_skips_fallback :
    ( extract_vba_code oracleThrow fs0 "/d/a.xlsm").2 = false ∧
    ( extract_vba_code oracleThrow fs0 "/d/a.xlsm").1 = "(提取失败: boom)" := by
  decide

/-- C2 amended: the embedded-binary-stream fallback is attempted exactly
    when the whole-document parse returns normally with no macro code and
    the file is a readable zip with a `vbaProject.bin` stream among its
    entries; a whole-document parse that raises returns the failure
    placeholder without attempting the fallback (see the counterexample). -/
theorem c2_amended_fallback_on_empty_whole_parse (o : VbaOracle) (fs : FS)
    (p : String) (ents : List (String × Content)) (nm : String)
    (hav : o.available = true)
    (hdoc : fsGet fs p = some (Doc.zip ents))
    (hok : o.parseWhole (some (Doc.zip ents)) = Except.ok [])
    (hnm : firstVbaPath ents = some nm) :
    ( extract_vba_code o fs p).2 = true := by
  simp only [extract_vba_code, hav, hdoc, hok, hnm, List.isEmpty_nil,
    Bool.true_eq_false, if_false, reduceIte]
  split <;> rfl

theorem c2_amended_fallback_on_empty_whole_parse_witness :
    (oracle0.available = true ∧
     fsGet fs0 "/d/a.xlsm" = some (Doc.zip ents0) ∧
     oracle0.parseWhole (some (Doc.zip ents0)) = Except.ok [] ∧
     firstVbaPath ents0 = some "xl/vbaProject.bin") ∧
    ( extract_vba_code oracle0 fs0 "/d/a.xlsm").2 = true :=
  ⟨⟨rfl, by decide, rfl, by decide⟩,
   c2_amended_fallback_on_empty_whole_parse oracle0 fs0 "/d/a.xlsm" ents0
     "xl/vbaProject.bin" rfl (by decide) rfl (by decide)⟩

/-- C1 amended: atomicity holds only when the repack write is not
    interrupted.  For every invocation in which no operation faults, the
    file at the input path is afterwards either unchanged or a complete
    repacked zip archive; the partially-written state of the counterexample
    can arise only out of an interrupted repack. -/
theorem c1_amended_disk_state_without_repack_fault (o : VbaOracle) (fs : FS)
    (dir fname : String) (r : Bool) :
    fsGet ( clean_vba_macro o none fs dir fname r).fs (dir ++ "/" ++ fname) =
        fsGet fs (dir ++ "/" ++ fname) ∨
      ∃ es, fsGet ( clean_vba_macro o none fs dir fname r).fs
        (dir ++ "/" ++ fname) = some (Doc.zip es) := by
  cases h : clean_vba_try o none fs dir fname r with
  | ok res =>
    have hm : clean_vba_macro o none fs dir fname r = res := by
      unfold clean_vba_macro
      rw [h]
    rw [hm]
    simp only [clean_vba_try, repack_docx] at h
    repeat' split at h
    all_goals try injection h with h
    all_goals try subst h
    all_goals simp_all [fsGet_fsSet_self]
  | error ex =>
    exfalso
    simp only [clean_vba_try, repack_docx] at h
    repeat' split at h
    all_goals simp_all [ite_eq_iff]

/-- C3: a file whose macro stream is absent is never mutated on disk.  If
    the input file exists and either its lowercased suffix is in the
    macro-incapable list, or it is macro-capable and no archive entry lies
    at or under any of the three `vbaProject.bin` paths, then
    `clean_vba_macro` leaves the disk exactly as it was (so the content
    hash is unchanged and no repack happened) and returns 0 — under every
    fault injection. -/
theorem c3_no_macro_files_never_mutated (o : VbaOracle) (fault : Option Fault)
    (fs : FS) (dir fname : String) (r : Bool) (doc : Doc)
    (hex : fsGet fs (dir ++ "/" ++ fname) = some doc)
    (h : NO_MACRO_EXTS.contains (strLower (pySuffix fname)) = true ∨
      (SUPPORTED_EXTS.contains (strLower (pySuffix fname)) = true ∧
        ∀ ents, doc = Doc.zip ents → ∀ e ∈ ents,
          strStarts "word/vbaProject.bin" e.1 = false ∧
          strStarts "xl/vbaProject.bin" e.1 = false ∧
          strStarts "ppt/vbaProject.bin" e.1 = false)) :
    ( clean_vba_macro o fault fs dir fname r).fs = fs ∧
    ( clean_vba_macro o fault fs dir fname r).ret = 0 := by
  rcases h with h | ⟨hs, hno⟩
  · have hc := classify_of_no_macro_ext fname h
    simp [ clean_vba_macro, clean_vba_try, hex, hc]
  · have hc := classify_of_supported fname hs
    cases doc with
    | raw b => simp [ clean_vba_macro, clean_vba_try, hex, hc]
    | truncZip es => simp [ clean_vba_macro, clean_vba_try, hex, hc]
    | zip ents =>
      have hnone : ∀ fam : DocFamily,
          treeGet (extractTree ents) (vbaPathOf fam) = none := by
        intro fam
        apply treeGet_extractTree_eq_none
        intro e he heq
        have h3 := hno ents rfl e he
        cases fam with
        | word =>
          have hx := h3.1
          rw [heq] at hx
          simp only [vbaPathOf] at hx
          rw [strStarts_refl] at hx
          exact Bool.noConfusion hx
        | excel =>
          have hx := h3.2.1
          rw [heq] at hx
          simp only [vbaPathOf] at hx
          rw [strStarts_refl] at hx
          exact Bool.noConfusion hx
        | ppt =>
          have hx := h3.2.2
          rw [heq] at hx
          simp only [vbaPathOf] at hx
          rw [strStarts_refl] at hx
          exact Bool.noConfusion hx
      by_cases hf : fault = some Fault.extractFail
      · subst hf
        simp [ clean_vba_macro, clean_vba_try, hex, hc]
      · cases hdf : detectFamily ents with
        | none => simp [ clean_vba_macro, clean_vba_try, hex, hc, hf, hdf]
        | some fam =>
          simp [ clean_vba_macro, clean_vba_try, hex, hc, hf, hdf, hnone fam]

/-- C9: document-family detection tries `word`, then `xl`, then `ppt`,
    and only the first family's `vbaProject.bin` path is checked.  For a
    container that has a `word/` directory but no `word/vbaProject.bin`,
    a macro stream at `xl/vbaProject.bin` is not detected: the run reports
    no macro found, returns 0, and leaves the file (macro included)
    byte-identical on disk. -/
theorem c9_family_priority_macro_survives (o : VbaOracle)
    (fault : Option Fault) (fs : FS) (dir fname : String) (r : Bool)
    (ents : List (String × Content)) (c : Content)
    (hex : fsGet fs (dir ++ "/" ++ fname) = some (Doc.zip ents))
    (hsup : SUPPORTED_EXTS.contains (strLower (pySuffix fname)) = true)
    (hword : ∃ e ∈ ents, strStarts "word/" e.1 = true)
    (hnoword : ∀ e ∈ ents, strStarts "word/vbaProject.bin" e.1 = false)
    (hxl : ("xl/vbaProject.bin", c) ∈ ents) :
    ( clean_vba_macro o fault fs dir fname r).fs = fs ∧
    ( clean_vba_macro o fault fs dir fname r).ret = 0 ∧
    ( clean_vba_macro o fault fs dir fname r).record.vba_found = false ∧
    fsGet ( clean_vba_macro o fault fs dir fname r).fs (dir ++ "/" ++ fname) =
      some (Doc.zip ents) := by
  have hc := classify_of_supported fname hsup
  have hw : dirEntryExists ents "word" = true := by
    obtain ⟨e, he, hst⟩ := hword
    have happ : ("word" ++ "/" : String) = "word/" := rfl
    refine List.any_eq_true.mpr ⟨e, he, ?_⟩
    rw [happ, hst]
    simp
  have hdf : detectFamily ents = some DocFamily.word := by
    simp [detectFamily, hw]
  have hvnone : treeGet (extractTree ents) "word/vbaProject.bin" = none := by
    apply treeGet_extractTree_eq_none
    intro e he heq
    have hx := hnoword e he
    rw [heq] at hx
    rw [strStarts_refl] at hx
    exact Bool.noConfusion hx
  by_cases hf : fault = some Fault.extractFail
  · subst hf
    simp [ clean_vba_macro, clean_vba_try, hex, hc]
  · simp [ clean_vba_macro, clean_vba_try, hex, hc, hf, hdf, vbaPathOf, hvnone]

theorem c3_no_macro_files_never_mutated_witness :
    fsGet fs1 "/d/b.xlsm" = some (Doc.zip ents1) ∧
    SUPPORTED_EXTS.contains (strLower (pySuffix "b.xlsm")) = true ∧
    ( clean_vba_macro oracle0 none fs1 "/d" "b.xlsm" false).fs = fs1 ∧
    ( clean_vba_macro oracle0 none fs1 "/d" "b.xlsm" false).ret = 0 := by
  have hno : ∀ ents, Doc.zip ents1 = Doc.zip ents → ∀ e ∈ ents,
      strStarts "word/vbaProject.bin" e.1 = false ∧
      strStarts "xl/vbaProject.bin" e.1 = false ∧
      strStarts "ppt/vbaProject.bin" e.1 = false := by
    intro ents hents e he
    injection hents with h'
    subst h'
    simp only [ents1, List.mem_singleton] at he
    subst he
    exact ⟨by decide, by decide, by decide⟩
  have hmain := c3_no_macro_files_never_mutated oracle0 none fs1 "/d" "b.xlsm"
    false (Doc.zip ents1) (by decide) (Or.inr ⟨by decide, hno⟩)
  exact ⟨by decide, by decide, hmain.1, hmain.2⟩

theorem c9_family_priority_macro_survives_witness :
    fsGet fsW "/d/c.docm" = some (Doc.zip entsW) ∧
    (("xl/vbaProject.bin", "MB") ∈ entsW) ∧
    ( clean_vba_macro oracle0 none fsW "/d" "c.docm" false).fs = fsW ∧
    ( clean_vba_macro oracle0 none fsW "/d" "c.docm" false).ret = 0 ∧
    fsGet ( clean_vba_macro oracle0 none fsW "/d" "c.docm" false).fs
      "/d/c.docm" = some (Doc.zip entsW) := by
  have hmain := c9_family_priority_macro_survives oracle0 none fsW "/d"
    "c.docm" false entsW "MB" (by decide) (by decide)
    ⟨("word/document.xml", "d"), by decide, by decide⟩ (by decide) (by decide)
  exact ⟨by decide, by decide, hmain.1, hmain.2.1, hmain.2.2.2⟩

/-- C4: with `replace_original` set and a macro stream present, whenever
    the original path no longer holds the original bytes after the call
    (i.e. the repack touched it — including a repack that faulted midway),
    the backup file `<stem>_backup<ext>` beside it holds a byte-identical
    copy of the pre-clean original: the backup is written before the repack
    opens the original for writing. -/
theorem c4_backup_before_overwrite (o : VbaOracle) (fault : Option Fault)
    (fs : FS) (dir fname : String) (ents : List (String × Content))
    (fam : DocFamily) (mc : Content)
    (hex : fsGet fs (dir ++ "/" ++ fname) = some (Doc.zip ents))
    (hsup : SUPPORTED_EXTS.contains (strLower (pySuffix fname)) = true)
    (hfam : detectFamily ents = some fam)
    (hmac : treeGet (extractTree ents) (vbaPathOf fam) = some mc)
    (hne : fsGet ( clean_vba_macro o fault fs dir fname true).fs
      (dir ++ "/" ++ fname) ≠ some (Doc.zip ents)) :
    fsGet ( clean_vba_macro o fault fs dir fname true).fs
      (backupPath dir fname) = some (Doc.zip ents) := by
  have hc := classify_of_supported fname hsup
  have hbp := backupPath_ne_input dir fname
  obtain _ | (_ | _ | k) := fault
  · simp [ clean_vba_macro, clean_vba_try, repack_docx, hex, hc, hfam, hmac,
      fsGet_fsSet_self, fsGet_fsSet_ne, hbp]
  · simp [ clean_vba_macro, clean_vba_try, repack_docx, hex, hc, hfam,
      hmac] at hne
  · simp [ clean_vba_macro, clean_vba_try, repack_docx, hex, hc, hfam,
      hmac] at hne
  · simp [ clean_vba_macro, clean_vba_try, repack_docx, hex, hc, hfam, hmac,
      fsGet_fsSet_self, fsGet_fsSet_ne, hbp]

theorem c4_backup_before_overwrite_witness :
    fsGet fs0 "/d/a.xlsm" = some (Doc.zip ents0) ∧
    detectFamily ents0 = some DocFamily.excel ∧
    treeGet (extractTree ents0) (vbaPathOf DocFamily.excel) =
      some "MACROBYTES" ∧
    fsGet ( clean_vba_macro oracle0 none fs0 "/d" "a.xlsm" true).fs
      "/d/a.xlsm" ≠ some (Doc.zip ents0) ∧
    fsGet ( clean_vba_macro oracle0 none fs0 "/d" "a.xlsm" true).fs
      (backupPath "/d" "a.xlsm") = some (Doc.zip ents0) :=
  ⟨by decide, by decide, by decide, by decide,
   c4_backup_before_overwrite oracle0 none fs0 "/d" "a.xlsm" ents0
     DocFamily.excel "MACROBYTES" (by decide) (by decide) (by decide)
     (by decide) (by decide)⟩

/-- C5: `clean_vba_macro` returns 1 exactly on the MacroCleared success
    path — the outcome record carries a macro-cleared message, Success
    status and the macro-found flag, and a complete repacked archive stands
    at the input path; every other path (no-macro, unsupported, and all
    failures) returns 0. -/
theorem c5_return_one_iff_macro_cleared (o : VbaOracle) (fault : Option Fault)
    (fs : FS) (dir fname : String) (r : Bool) :
    ( clean_vba_macro o fault fs dir fname r).ret = 1 ↔
      (isClearedMsg
        ( clean_vba_macro o fault fs dir fname r).record.message = true ∧
       ( clean_vba_macro o fault fs dir fname r).record.status =
         Status.success ∧
       ( clean_vba_macro o fault fs dir fname r).record.vba_found = true ∧
       ∃ es, fsGet ( clean_vba_macro o fault fs dir fname r).fs
         (dir ++ "/" ++ fname) = some (Doc.zip es)) := by
  obtain ⟨h1, h2, h3⟩ := clean_vba_macro_spec o fault fs dir fname r
  constructor
  · intro hr
    have hc := h1.mp hr
    exact ⟨hc, h3 hc⟩
  · intro hrhs
    exact h1.mpr hrhs.1

/-- C7: failures are local, per-file outcomes.  Every outcome record with
    Failed status comes with return value 0; a raised exception is caught
    by the handler, which records the exception text in the record, leaves
    the return value 0 and the in-flight disk state as the raise left it;
    and the batch loop appends exactly one record per input file, so a
    batch over N files always attempts all N.  (Report rendering and the
    HTML writer are the excluded renderer; the model's history append is
    total.) -/
theorem c7_failures_local_and_batch_complete :
    (∀ (o : VbaOracle) (fault : Option Fault) (fs : FS) (dir fname : String)
        (r : Bool),
      ( clean_vba_macro o fault fs dir fname r).record.status =
        Status.failed →
      ( clean_vba_macro o fault fs dir fname r).ret = 0) ∧
    (∀ (o : VbaOracle) (fault : Option Fault) (fs : FS) (dir fname : String)
        (r : Bool) (ex : PyExn),
      clean_vba_try o fault fs dir fname r = Except.error ex →
      clean_vba_macro o fault fs dir fname r =
        ⟨ex.fs, 0, ⟨Status.failed, Msg.exceptionMsg ex.msg, ex.vba_found,
          ex.vba_size, ex.vba_code⟩⟩) ∧
    (∀ (o : VbaOracle) (jobs : List Job) (fs : FS) (hist : List Outcome)
        (acc : Nat),
      (clean_batch o jobs fs hist acc).2.1.length =
        hist.length + jobs.length) :=
  ⟨fun o fault fs dir fname r =>
    (clean_vba_macro_spec o fault fs dir fname r).2.1,
   clean_vba_macro_error_spec, clean_batch_length⟩

theorem c7_failures_local_and_batch_complete_witness :
    ( clean_vba_macro oracle0 none [] "/d" "missing.xlsm"
        false).record.status = Status.failed ∧
    ( clean_vba_macro oracle0 none [] "/d" "missing.xlsm" false).ret = 0 ∧
    (clean_batch oracle0 [job0] [] [] 0).2.1.length =
      ([] : List Outcome).length + [job0].length :=
  ⟨by decide,
   c7_failures_local_and_batch_complete.1 oracle0 none [] "/d" "missing.xlsm"
     false (by decide),
   c7_failures_local_and_batch_complete.2.2 oracle0 [job0] [] [] 0⟩

/-- C8: extension classification of an existing input file.  A lowercased
    suffix in `NO_MACRO_EXTS` yields the Success/NoMacroByFormat no-op with
    an unchanged disk and return 0; a suffix in `SUPPORTED_EXTS` proceeds
    to the macro-removal pipeline (its outcome message is never
    file-not-found, no-macro-by-format or unsupported-format); any other
    suffix yields the UnsupportedFormat failure with an unchanged disk and
    return 0. -/
theorem c8_extension_classification (o : VbaOracle) (fault : Option Fault)
    (fs : FS) (dir fname : String) (r : Bool) (doc : Doc)
    (hex : fsGet fs (dir ++ "/" ++ fname) = some doc) :
    (NO_MACRO_EXTS.contains (strLower (pySuffix fname)) = true →
      clean_vba_macro o fault fs dir fname r =
        ⟨fs, 0, ⟨Status.success, Msg.noMacroFormat, false, 0, ""⟩⟩) ∧
    (SUPPORTED_EXTS.contains (strLower (pySuffix fname)) = true →
      ( clean_vba_macro o fault fs dir fname r).record.message ≠
          Msg.fileNotFound ∧
      ( clean_vba_macro o fault fs dir fname r).record.message ≠
          Msg.noMacroFormat ∧
      ∀ s, ( clean_vba_macro o fault fs dir fname r).record.message ≠
        Msg.unsupportedFormat s) ∧
    (NO_MACRO_EXTS.contains (strLower (pySuffix fname)) = false →
      SUPPORTED_EXTS.contains (strLower (pySuffix fname)) = false →
      clean_vba_macro o fault fs dir fname r =
        ⟨fs, 0, ⟨Status.failed, Msg.unsupportedFormat (pySuffix fname),
          false, 0, ""⟩⟩) := by
  refine ⟨?_, ?_, ?_⟩
  · intro h
    have hc := classify_of_no_macro_ext fname h
    simp [ clean_vba_macro, clean_vba_try, hex, hc]
  · intro h
    have hc := classify_of_supported fname h
    cases hm : clean_vba_try o fault fs dir fname r with
    | ok res =>
      have heq : clean_vba_macro o fault fs dir fname r = res := by
        unfold clean_vba_macro
        rw [hm]
      rw [heq]
      obtain _ | (_ | _ | k) := fault
      all_goals simp only [clean_vba_try, repack_docx, hex, hc] at hm
      all_goals repeat' split at hm
      all_goals try injection hm with hm
      all_goals try subst hm
      all_goals simp_all
    | error ex =>
      rw [ clean_vba_macro_error_spec o fault fs dir fname r ex hm]
      simp
  · intro h1 h2
    have hc := classify_of_neither fname h1 h2
    simp [ clean_vba_macro, clean_vba_try, hex, hc]

theorem c8_extension_classification_witness :
    fsGet fs0 "/d/a.xlsm" = some (Doc.zip ents0) ∧
    SUPPORTED_EXTS.contains (strLower (pySuffix "a.xlsm")) = true ∧
    ( clean_vba_macro oracle0 none fs0 "/d" "a.xlsm" false).record.message ≠
      Msg.noMacroFormat :=
  ⟨by decide, by decide,
   ((c8_extension_classification oracle0 none fs0 "/d" "a.xlsm" false
      (Doc.zip ents0) (by decide)).2.1 (by decide)).2.1⟩

/-- C10: extension classification is case-insensitive — the membership
    tests run on the lowercased suffix, so any two names whose lowercased
    suffixes agree (such as `.XLSM` and `.xlsm`) are classified
    identically. -/
theorem c10_classification_case_insensitive (n1 n2 : String)
    (h : strLower (pySuffix n1) = strLower (pySuffix n2)) :
    classifyName n1 = classifyName n2 := by
  unfold classifyName
  rw [h]

theorem c10_classification_case_insensitive_witness :
    strLower (pySuffix "Report.XLSM") = strLower (pySuffix "Report.xlsm") ∧
    classifyName "Report.XLSM" = classifyName "Report.xlsm" ∧
    classifyName "Report.XLSM" = Classification.macroCapable :=
  ⟨by decide,
   c10_classification_case_insensitive "Report.XLSM" "Report.xlsm"
     (by decide),
   by decide⟩

/-- A content on which one sanitization pass leaves no pattern match is a
    fixed point of the sanitizer. -/
theorem clean_content_types_stable (s : String)
    (h1 : hasStart patWordVba s.data = false)
    (h2 : hasStart patXlVba s.data = false)
    (h3 : hasStart patPptVba s.data = false)
    (h4 : hasStart patDefaultBin s.data = false)
    (h5 : hasBlank s.data = false) :
    clean_content_types s = s := by
  unfold clean_content_types
  rw [show removePat patWordVba s.data = s.data from
    removePatAux_of_no_start _ _ _ h1]
  rw [show removePat patXlVba s.data = s.data from
    removePatAux_of_no_start _ _ _ h2]
  rw [show removePat patPptVba s.data = s.data from
    removePatAux_of_no_start _ _ _ h3]
  rw [show removePat patDefaultBin s.data = s.data from
    removePatAux_of_no_start _ _ _ h4]
  rw [show collapseBlank s.data = s.data from
    collapseAux_of_no_blank _ _ h5]

/-- C6 counterexample: the claim "`_clean_content_types` is idempotent" is
    false.  Removing a non-greedy `<Override ...bin".*?/>` match can splice
    the surrounding text into a fresh match that only the next application
    removes: on `ctC` one pass leaves a full override declaration, a second
    pass removes it, so applying the transformation twice differs from
    applying it once. -/
theorem c6_counterexample_not_idempotent :
    clean_content_types ctC =
      "<Override PartName=\"/word/vbaProject.bin\" y/>" ∧
    clean_content_types (clean_content_types ctC) = "" ∧
    clean_content_types (clean_content_types ctC) ≠ clean_content_types ctC :=
  ⟨by decide, by decide, by decide⟩

/-- C6 amended: the sanitizer is idempotent on every manifest whose first
    pass leaves no further pattern occurrence — no position starting one of
    the four removal patterns and no blank-line match (which is the case
    for well-formed manifests, where removals do not splice new matches) —
    and it is a no-op when the manifest file does not exist in the working
    directory. -/
theorem c6_amended_idempotent_on_stable_output :
    (∀ c : String,
      hasStart patWordVba (clean_content_types c).data = false →
      hasStart patXlVba (clean_content_types c).data = false →
      hasStart patPptVba (clean_content_types c).data = false →
      hasStart patDefaultBin (clean_content_types c).data = false →
      hasBlank (clean_content_types c).data = false →
      clean_content_types (clean_content_types c) = clean_content_types c) ∧
    (∀ tr : WorkTree, treeGet tr ctName = none →
      cleanContentTypesAt tr = tr) := by
  constructor
  · intro c h1 h2 h3 h4 h5
    exact clean_content_types_stable (clean_content_types c) h1 h2 h3 h4 h5
  · intro tr h
    unfold cleanContentTypesAt
    rw [h]

theorem c6_amended_idempotent_on_stable_output_witness :
    (hasStart patWordVba (clean_content_types manifest0).data = false ∧
     hasStart patXlVba (clean_content_types manifest0).data = false ∧
     hasStart patPptVba (clean_content_types manifest0).data = false ∧
     hasStart patDefaultBin (clean_content_types manifest0).data = false ∧
     hasBlank (clean_content_types manifest0).data = false ∧
     clean_content_types (clean_content_types manifest0) =
       clean_content_types manifest0) ∧
    (treeGet tr0 ctName = none ∧ cleanContentTypesAt tr0 = tr0) :=
  ⟨⟨by decide, by decide, by decide, by decide, by decide,
    c6_amended_idempotent_on_stable_output.1 manifest0 (by decide)
      (by decide) (by decide) (by decide) (by decide)⟩,
   ⟨by decide, c6_amended_idempotent_on_stable_output.2 tr0 (by decide)⟩⟩
